import Mathlib

/-!
Verification of the PAD (Provider Authorization / ASPA-style) reconciliation
core of the krill CA daemon: the definition table (`PadDefinitions`), the
issued-object store (`PadObjects`), the reconciliation algorithms `update`
and `renew`, and the commit step `updated`.

The two source files embedded here are `src/commons/api/pad.rs` (definitions,
updates, URI validation policy) and `src/daemon/ca/pad.rs` (tables, stores,
reconciliation).  The external collaborators that the reconciliation core
consumes (`PadObjectsUpdates`, `CertifiedKey`, `KrillSigner`, `Config`) are
not part of those files; they are modelled from the design document's
boundary contracts and marked as such.

Maps: the Rust code keys both tables by ASN in a `HashMap`.  We embed a map
as an association list with HashMap-faithful semantics: `mapGet` finds the
entry for a key, `mapInsert` replaces-or-inserts, `mapErase` deletes.
Iteration order of a `HashMap` is unspecified and the design document states
no result depends on it; the embedding fixes the list order.
-/

/-- AS numbers: 32-bit unsigned domain values; only equality and membership
matter here, so we use `Nat`. -/
abbrev Asn := Nat

/-- Timestamps (rpki `Time`); only ordering matters, so we use `Int`. -/
abbrev Time := Int

section MapPrimitives

variable {α : Type}

/-- Lookup in an association list keyed by ASN (`HashMap::get`). -/
def mapGet : List (Asn × α) → Asn → Option α
  | [], _ => none
  | (k, v) :: rest, a => if k = a then some v else mapGet rest a

/-- Delete all entries for a key (`HashMap::remove`; a well-formed map has at
most one). -/
def mapErase : List (Asn × α) → Asn → List (Asn × α)
  | [], _ => []
  | (k, v) :: rest, a => if k = a then mapErase rest a else (k, v) :: mapErase rest a

/-- Replace-or-insert (`HashMap::insert`). -/
def mapInsert (m : List (Asn × α)) (k : Asn) (v : α) : List (Asn × α) :=
  (k, v) :: mapErase m k

/-- Modify the value stored at a key in place, if present
(`HashMap::get_mut` followed by a mutation of the value). -/
def mapModify : List (Asn × α) → Asn → (α → α) → List (Asn × α)
  | [], _, _ => []
  | (k, v) :: rest, a, f =>
      if k = a then (k, f v) :: rest else (k, v) :: mapModify rest a f

theorem mapGet_erase (m : List (Asn × α)) (k a : Asn) :
    mapGet (mapErase m k) a = if a = k then none else mapGet m a := by
  induction m with
  | nil => by_cases h : a = k <;> simp [mapErase, mapGet, h]
  | cons p rest ih =>
      obtain ⟨k', v⟩ := p
      by_cases hk : k' = k
      · subst hk
        by_cases ha : a = k'
        · subst ha
          simp [mapErase, ih]
        · have ha' : ¬ k' = a := fun h => ha h.symm
          simp [mapErase, mapGet, ih, ha, ha']
      · by_cases ha : k' = a
        · subst ha
          simp [mapErase, mapGet, hk]
        · by_cases hak : a = k
          · subst hak
            simp [mapErase, mapGet, hk, ha, ih]
          · simp [mapErase, mapGet, hk, ha, ih, hak]

theorem mapGet_insert (m : List (Asn × α)) (k a : Asn) (v : α) :
    mapGet (mapInsert m k v) a = if a = k then some v else mapGet m a := by
  by_cases h : a = k
  · subst h; simp [mapInsert, mapGet]
  · have h' : ¬ k = a := fun hh => h hh.symm
    simp [mapInsert, mapGet, h, h', mapGet_erase]

theorem mapGet_modify (m : List (Asn × α)) (k a : Asn) (f : α → α) :
    mapGet (mapModify m k f) a =
      if a = k then (mapGet m a).map f else mapGet m a := by
  induction m with
  | nil => by_cases h : a = k <;> simp [mapModify, mapGet, h]
  | cons p rest ih =>
      obtain ⟨k', v⟩ := p
      by_cases hk : k' = k
      · subst hk
        by_cases ha : a = k'
        · subst ha
          simp [mapModify, mapGet]
        · have ha' : ¬ k' = a := fun h => ha h.symm
          simp [mapModify, mapGet, ha, ha']
      · by_cases ha : k' = a
        · subst ha
          simp [mapModify, mapGet, hk]
        · simp [mapModify, mapGet, hk, ha, ih]

/-- Membership of a key among the entries coincides with `mapGet` success. -/
theorem mapGet_isSome_iff (m : List (Asn × α)) (a : Asn) :
    (mapGet m a).isSome = true ↔ ∃ v, (a, v) ∈ m := by
  induction m with
  | nil => simp [mapGet]
  | cons p rest ih =>
      obtain ⟨k, v⟩ := p
      by_cases hk : k = a
      · subst hk
        constructor
        · intro _
          exact ⟨v, List.mem_cons_self _ _⟩
        · intro _
          simp [mapGet]
      · simp only [mapGet, hk, if_false, ih, List.mem_cons]
        constructor
        · rintro ⟨w, hw⟩
          exact ⟨w, Or.inr hw⟩
        · rintro ⟨w, hw | hw⟩
          · injection hw with h1 h2
            exact absurd h1.symm hk
          · exact ⟨w, hw⟩

end MapPrimitives

/-! ## `src/commons/api/pad.rs` -/

/-- A parsed absolute URL (the `url::Url` type), reduced to the components the
PAD code inspects: scheme, username, optional password, path, optional query,
optional fragment.  The `url` crate returns the empty string for an absent
username, which the embedding mirrors. -/
structure Url where
  scheme : String
  username : String
  password : Option String
  path : String
  query : Option String
  fragment : Option String
deriving DecidableEq, Repr

/-- `PadDefinition`: one authorization definition, (AS number, peering API
URI). -/
structure PadDefinition where
  asn : Asn
  peering_api_uri : Url
deriving DecidableEq, Repr

/-- `PadUpdate`: a partial update carrying only a new peering API URI. -/
structure PadUpdate where
  peering_api_uri : Url
deriving DecidableEq, Repr

/-- `PadDefinition::new`. -/
def PadDefinition.new (asn : Asn) (peering_api_uri : Url) : PadDefinition :=
  { asn := asn, peering_api_uri := peering_api_uri }

/-- `PadDefinition::valid_uri`: the URI validation policy, an exact
transcription of the chain of early returns in the source. -/
def PadDefinition.valid_uri (d : PadDefinition) : Bool :=
  if d.peering_api_uri.query.isSome then false
  else if d.peering_api_uri.fragment.isSome then false
  else if !d.peering_api_uri.username.isEmpty then false
  else if d.peering_api_uri.password.isSome then false
  else if d.peering_api_uri.path.endsWith "/" then false
  else if d.peering_api_uri.scheme != "https" then false
  else true

/-- `PadDefinition::apply_update`: replace the peering API URI, keep the
ASN. -/
def PadDefinition.apply_update (d : PadDefinition) (update : PadUpdate) : PadDefinition :=
  { d with peering_api_uri := update.peering_api_uri }

/-- The URI validity policy as §4.2 of the design document words it
(spec-side predicate, to be compared with `PadDefinition.valid_uri`). -/
def UriPolicySpec (d : PadDefinition) : Prop :=
  d.peering_api_uri.scheme = "https" ∧
  d.peering_api_uri.query = none ∧
  d.peering_api_uri.fragment = none ∧
  d.peering_api_uri.username = "" ∧
  d.peering_api_uri.password = none ∧
  d.peering_api_uri.path.endsWith "/" = false

/-! ## `src/daemon/ca/pad.rs`: the definition table -/

/-- `PadDefinitions`: the definition table, a map from ASN to one
`PadDefinition` (`HashMap<Asn, PadDefinition>`). -/
structure PadDefinitions where
  defs : List (Asn × PadDefinition)
deriving DecidableEq, Repr

/-- `PadDefinitions::add_or_replace`. -/
def PadDefinitions.add_or_replace (t : PadDefinitions) (pad_def : PadDefinition) : PadDefinitions :=
  ⟨mapInsert t.defs pad_def.asn pad_def⟩

/-- `PadDefinitions::remove`. -/
def PadDefinitions.remove (t : PadDefinitions) (asn : Asn) : PadDefinitions :=
  ⟨mapErase t.defs asn⟩

/-- `PadDefinitions::apply_update`: mutate the entry in place when present,
insert a freshly constructed definition otherwise. -/
def PadDefinitions.apply_update (t : PadDefinitions) (asn : Asn) (update : PadUpdate) : PadDefinitions :=
  match mapGet t.defs asn with
  | some _ => ⟨mapModify t.defs asn (fun current => current.apply_update update)⟩
  | none => ⟨mapInsert t.defs asn (PadDefinition.new asn update.peering_api_uri)⟩

/-- `PadDefinitions::all`: the table's values (iteration order is
unspecified in the source; the embedding fixes the entry order). -/
def PadDefinitions.all (t : PadDefinitions) : List PadDefinition :=
  t.defs.map Prod.snd

/-- `PadDefinitions::get`. -/
def PadDefinitions.get (t : PadDefinitions) (asn : Asn) : Option PadDefinition :=
  mapGet t.defs asn

/-- `PadDefinitions::has`. -/
def PadDefinitions.has (t : PadDefinitions) (asn : Asn) : Bool :=
  (mapGet t.defs asn).isSome

/-- `PadDefinitions::len`. -/
def PadDefinitions.len (t : PadDefinitions) : Nat :=
  t.defs.length

/-- `PadDefinitions::is_empty`. -/
def PadDefinitions.isEmptyTable (t : PadDefinitions) : Bool :=
  t.defs.isEmpty

/-- Key consistency, the `HashMap` discipline the table's operations
maintain: every entry is stored under its own ASN. -/
def PadDefinitions.keyConsistent (t : PadDefinitions) : Prop :=
  ∀ p ∈ t.defs, (p.2).asn = p.1

/-- The table invariant of §3: at most one definition per subject. -/
def PadDefinitions.nodupKeys (t : PadDefinitions) : Prop :=
  (t.defs.map Prod.fst).Nodup

instance (t : PadDefinitions) : Decidable t.keyConsistent := by
  unfold PadDefinitions.keyConsistent
  infer_instance

instance (t : PadDefinitions) : Decidable t.nodupKeys := by
  unfold PadDefinitions.nodupKeys
  infer_instance

/-! ## Issued objects and the signing boundary

`PadObjectsUpdates`, `CertifiedKey`, `KrillSigner`, `Config` and
`IssuanceTimingConfig` live in other modules of the repository; they are
modelled here from the design document's boundary contracts (§3, §6). -/

/-- An X.509 validity window (rpki `Validity`). -/
structure Validity where
  not_before : Time
  not_after : Time
deriving DecidableEq, Repr

/-- Modelled from the spec: the signed artifact returned by the signing
boundary (§6) — its embedded certificate carries a serial and a validity
window, it self-declares a signed-object location (absence of which is a
contract breach), and it has a transport encoding. -/
structure Pad where
  validity : Validity
  serial : Nat
  signed_object : Option String
  encoded : String
deriving DecidableEq, Repr

/-- Signing-boundary failures (key unavailable, builder misuse, encoding
failure); their identity is opaque to the reconciliation core. -/
abbrev SigningError := String

/-- Modelled from the spec: the certified-key boundary (§6) — it exposes the
current resource set as a membership test for subject identifiers.  (Its
naming scheme and certificate context flow into the signed artifact and are
folded into the signing boundary.) -/
structure CertifiedKey where
  resources : Asn → Bool

/-- Modelled from the spec: the signing boundary (§6),
`sign(definition, certified_key, validity) -> Result<SignedArtifact, SigningError>`. -/
structure KrillSigner where
  sign : PadDefinition → CertifiedKey → Validity → Except SigningError Pad

/-- Modelled from the spec: issuance-timing configuration (§6) — supplies the
fresh validity window used for new objects. -/
structure IssuanceTimingConfig where
  new_aspa_validity : Validity

/-- Modelled from the spec: the daemon configuration, as far as
reconciliation reads it — it carries the issuance-timing configuration. -/
structure Config where
  issuance_timing : IssuanceTimingConfig

/-- `make_pad_object`: hand the definition, certified-key context and
requested validity window to the signing boundary. -/
def make_pad_object (pad_def : PadDefinition) (certified_key : CertifiedKey)
    (validity : Validity) (signer : KrillSigner) : Except SigningError Pad :=
  signer.sign pad_def certified_key validity

/-- `PadInfo`: the issued-object record. -/
structure PadInfo where
  definition : PadDefinition
  validity : Validity
  serial : Nat
  uri : String
  base64 : String
  hash : Nat
deriving DecidableEq, Repr

/-- Modelled from the spec: the content digest of the transport encoding
(`Base64::to_hash`, external rpki code); a deterministic pure function of the
encoded form, as §3 requires of `content_hash`. -/
def contentHash (s : String) : Nat :=
  s.data.foldl (fun h c => h * 257 + c.toNat) 7

/-- `PadInfo::new`: derive the record from the signed artifact.  The source
unwraps the self-declared signed-object location (`// safe for our own ROAs`);
absence is a fatal contract breach per §7, rendered here with a default. -/
def PadInfo.new (definition : PadDefinition) (pad : Pad) : PadInfo :=
  { definition := definition
    validity := pad.validity
    serial := pad.serial
    uri := pad.signed_object.getD ""
    base64 := pad.encoded
    hash := contentHash pad.encoded }

/-- `PadInfo::new_pad`. -/
def PadInfo.new_pad (definition : PadDefinition) (pad : Pad) : PadInfo :=
  PadInfo.new definition pad

/-- `PadInfo::asn`. -/
def PadInfo.asn (i : PadInfo) : Asn :=
  i.definition.asn

/-- `PadInfo::expires`. -/
def PadInfo.expires (i : PadInfo) : Time :=
  i.validity.not_after

/-- Modelled from the spec: the Update Batch (§3) — a list of records to
upsert and a list of subject identifiers to remove, accumulated in order. -/
structure PadObjectsUpdates where
  updated : List PadInfo
  removed : List Asn
deriving DecidableEq, Repr

/-- Modelled from the spec: the empty batch (`Default`). -/
def PadObjectsUpdates.empty : PadObjectsUpdates :=
  { updated := [], removed := [] }

/-- Modelled from the spec: append a record to the upsert list. -/
def PadObjectsUpdates.add_updated (u : PadObjectsUpdates) (i : PadInfo) : PadObjectsUpdates :=
  { u with updated := u.updated ++ [i] }

/-- Modelled from the spec: append a subject to the removal list. -/
def PadObjectsUpdates.add_removed (u : PadObjectsUpdates) (a : Asn) : PadObjectsUpdates :=
  { u with removed := u.removed ++ [a] }

/-- `PadObjects`: the issued-object store (`HashMap<Asn, PadInfo>`). -/
structure PadObjects where
  objects : List (Asn × PadInfo)
deriving DecidableEq, Repr

/-- `PadObjects::make_pad`: sign one definition with a fresh validity window
and wrap the artifact into a record. -/
def PadObjects.make_pad (pad_def : PadDefinition) (certified_key : CertifiedKey)
    (issuance_timing : IssuanceTimingConfig) (signer : KrillSigner) :
    Except SigningError PadInfo :=
  match make_pad_object pad_def certified_key issuance_timing.new_aspa_validity signer with
  | .error e => .error e
  | .ok pad => .ok (PadInfo.new_pad pad_def pad)

/-- The issuance test of `PadObjects::update`: a covered definition needs
issuance when no record exists for its ASN or the existing record's embedded
definition differs. -/
def PadObjects.needToIssue (store : PadObjects) (d : PadDefinition) : Bool :=
  ((mapGet store.objects d.asn).map (fun existing => existing.definition != d)).getD true

/-- The first loop of `PadObjects::update`: walk the covered definitions in
order, sign each one that needs issuance, abort on the first signing error.
The records are produced in iteration order. -/
def PadObjects.issueLoop (store : PadObjects) (certified_key : CertifiedKey)
    (config : Config) (signer : KrillSigner) :
    List PadDefinition → Except SigningError (List PadInfo)
  | [] => .ok []
  | d :: rest =>
      if store.needToIssue d then
        match PadObjects.make_pad d certified_key config.issuance_timing signer with
        | .error e => .error e
        | .ok pad_info =>
            match store.issueLoop certified_key config signer rest with
            | .error e => .error e
            | .ok infos => .ok (pad_info :: infos)
      else
        store.issueLoop certified_key config signer rest

/-- `PadObjects::update`: reconcile the store against the definition table
and the certified key's resource set, producing an update batch.  The first
loop issues objects for covered definitions that need it; the second marks
every stored ASN that is no longer covered for removal. -/
def PadObjects.update (store : PadObjects) (all_pad_defs : PadDefinitions)
    (certified_key : CertifiedKey) (config : Config) (signer : KrillSigner) :
    Except SigningError PadObjectsUpdates :=
  let resources := certified_key.resources
  let covered := all_pad_defs.all.filter (fun aspa => resources aspa.asn)
  match store.issueLoop certified_key config signer covered with
  | .error e => .error e
  | .ok infos =>
      .ok { updated := infos
            removed := (store.objects.map Prod.fst).filter
              (fun pad => !(all_pad_defs.has pad) || !(resources pad)) }

/-- The renewal test of `PadObjects::renew`, exactly as the source computes
it: `renew_threshold.map(|threshold| pad.expires() < threshold).unwrap_or(true)`. -/
def renewDecision (renew_threshold : Option Time) (pad : PadInfo) : Bool :=
  (renew_threshold.map (fun threshold => decide (pad.expires < threshold))).getD true

/-- The loop of `PadObjects::renew`: re-sign each stored record that passes
the renewal test, reusing its embedded definition; abort on the first
signing error. -/
def PadObjects.renewLoop (certified_key : CertifiedKey)
    (renew_threshold : Option Time) (issuance_timing : IssuanceTimingConfig)
    (signer : KrillSigner) : List PadInfo → Except SigningError (List PadInfo)
  | [] => .ok []
  | pad :: rest =>
      if renewDecision renew_threshold pad then
        match PadObjects.make_pad pad.definition certified_key issuance_timing signer with
        | .error e => .error e
        | .ok new_pad =>
            match PadObjects.renewLoop certified_key renew_threshold issuance_timing signer rest with
            | .error e => .error e
            | .ok infos => .ok (new_pad :: infos)
      else
        PadObjects.renewLoop certified_key renew_threshold issuance_timing signer rest

/-- `PadObjects::renew`: re-issue stored records against an optional expiry
threshold; never produces removals. -/
def PadObjects.renew (store : PadObjects) (certified_key : CertifiedKey)
    (renew_threshold : Option Time) (issuance_timing : IssuanceTimingConfig)
    (signer : KrillSigner) : Except SigningError PadObjectsUpdates :=
  match PadObjects.renewLoop certified_key renew_threshold issuance_timing signer
      (store.objects.map Prod.snd) with
  | .error e => .error e
  | .ok infos => .ok { updated := infos, removed := [] }

/-- `PadObjects::updated`: commit a batch — insert every upserted record
under its own ASN, then delete every removed ASN. -/
def PadObjects.updated (store : PadObjects) (updates : PadObjectsUpdates) : PadObjects :=
  let afterUpserts :=
    updates.updated.foldl (fun m pad_info => mapInsert m pad_info.asn pad_info) store.objects
  ⟨updates.removed.foldl (fun m asn => mapErase m asn) afterUpserts⟩

/-- `PadObjects::is_empty`. -/
def PadObjects.isEmptyStore (store : PadObjects) : Bool :=
  store.objects.isEmpty

/-- `PadObjects` lookup (`self.0.get`). -/
def PadObjects.get (store : PadObjects) (asn : Asn) : Option PadInfo :=
  mapGet store.objects asn

/-- Key membership of the store. -/
def PadObjects.has (store : PadObjects) (asn : Asn) : Bool :=
  (mapGet store.objects asn).isSome

/-- Store key consistency: every record sits under its own definition's
ASN. -/
def PadObjects.keyConsistent (store : PadObjects) : Prop :=
  ∀ p ∈ store.objects, (p.2).asn = p.1

instance (store : PadObjects) : Decidable store.keyConsistent := by
  unfold PadObjects.keyConsistent
  infer_instance

/-- Modelled from the spec: the caller protocol around reconciliation (§4.5,
§7) — commit the batch when reconciliation succeeds, leave the store alone
when it fails. -/
def PadObjects.updateThenCommit (store : PadObjects) (all_pad_defs : PadDefinitions)
    (certified_key : CertifiedKey) (config : Config) (signer : KrillSigner) : PadObjects :=
  match store.update all_pad_defs certified_key config signer with
  | .ok batch => store.updated batch
  | .error _ => store

/-- Modelled from the spec: the caller protocol around renewal (§4.5, §7). -/
def PadObjects.renewThenCommit (store : PadObjects) (certified_key : CertifiedKey)
    (renew_threshold : Option Time) (issuance_timing : IssuanceTimingConfig)
    (signer : KrillSigner) : PadObjects :=
  match store.renew certified_key renew_threshold issuance_timing signer with
  | .ok batch => store.updated batch
  | .error _ => store

/-! ## Helper lemmas about the map layer -/

section MapLemmas

variable {α : Type}

theorem mem_mapErase {m : List (Asn × α)} {k : Asn} {p : Asn × α}
    (h : p ∈ mapErase m k) : p ∈ m ∧ ¬ p.1 = k := by
  induction m with
  | nil => simp [mapErase] at h
  | cons q rest ih =>
      obtain ⟨k', v⟩ := q
      by_cases hk : k' = k
      · simp only [mapErase, hk, if_pos rfl] at h
        rcases ih h with ⟨h1, h2⟩
        exact ⟨List.mem_cons_of_mem _ h1, h2⟩
      · simp only [mapErase, hk, if_false] at h
        rcases List.mem_cons.mp h with h1 | h1
        · subst h1
          exact ⟨List.mem_cons_self _ _, hk⟩
        · rcases ih h1 with ⟨h2, h3⟩
          exact ⟨List.mem_cons_of_mem _ h2, h3⟩

theorem mem_mapInsert {m : List (Asn × α)} {k : Asn} {v : α} {p : Asn × α}
    (h : p ∈ mapInsert m k v) : p = (k, v) ∨ p ∈ m := by
  rcases List.mem_cons.mp h with h1 | h1
  · exact Or.inl h1
  · exact Or.inr (mem_mapErase h1).1

theorem mem_mapModify {m : List (Asn × α)} {k : Asn} {f : α → α} {p : Asn × α}
    (h : p ∈ mapModify m k f) : p ∈ m ∨ ∃ v, (k, v) ∈ m ∧ p = (k, f v) := by
  induction m with
  | nil => simp [mapModify] at h
  | cons q rest ih =>
      obtain ⟨k', v⟩ := q
      by_cases hk : k' = k
      · subst hk
        simp only [mapModify, if_pos rfl] at h
        rcases List.mem_cons.mp h with h1 | h1
        · exact Or.inr ⟨v, List.mem_cons_self _ _, h1⟩
        · exact Or.inl (List.mem_cons_of_mem _ h1)
      · simp only [mapModify, hk, if_false] at h
        rcases List.mem_cons.mp h with h1 | h1
        · exact Or.inl (List.mem_cons.mpr (Or.inl h1))
        · rcases ih h1 with h2 | ⟨w, hw1, hw2⟩
          · exact Or.inl (List.mem_cons_of_mem _ h2)
          · exact Or.inr ⟨w, List.mem_cons_of_mem _ hw1, hw2⟩

theorem countP_mapErase_self (m : List (Asn × α)) (k : Asn) :
    (mapErase m k).countP (fun p => p.1 == k) = 0 := by
  rw [List.countP_eq_zero]
  intro p hp
  have := (mem_mapErase hp).2
  simpa using this

theorem countP_mapInsert_self (m : List (Asn × α)) (k : Asn) (v : α) :
    (mapInsert m k v).countP (fun p => p.1 == k) = 1 := by
  simp [mapInsert, List.countP_cons, countP_mapErase_self]

theorem mapGet_foldErase (l : List Asn) (m : List (Asn × α)) (a : Asn) :
    mapGet (l.foldl (fun acc x => mapErase acc x) m) a =
      if a ∈ l then none else mapGet m a := by
  induction l generalizing m with
  | nil => simp
  | cons x rest ih =>
      by_cases hx : a = x
      · subst hx
        by_cases hr : a ∈ rest <;>
          simp [List.foldl_cons, ih, hr, mapGet_erase]
      · by_cases hr : a ∈ rest <;>
          simp [List.foldl_cons, ih, hr, mapGet_erase, hx]

theorem mapGet_foldInsert_notMem (l : List PadInfo) (m : List (Asn × PadInfo)) (a : Asn)
    (h : ∀ i ∈ l, ¬ i.asn = a) :
    mapGet (l.foldl (fun acc i => mapInsert acc i.asn i) m) a = mapGet m a := by
  induction l generalizing m with
  | nil => simp
  | cons i rest ih =>
      have hi : ¬ a = i.asn := fun hh => h i (List.mem_cons_self _ _) hh.symm
      rw [List.foldl_cons, ih _ (fun j hj => h j (List.mem_cons_of_mem _ hj)),
        mapGet_insert, if_neg hi]

theorem has_foldInsert (l : List PadInfo) (m : List (Asn × PadInfo)) (a : Asn) :
    (mapGet (l.foldl (fun acc i => mapInsert acc i.asn i) m) a).isSome =
      (l.any (fun i => i.asn == a) || (mapGet m a).isSome) := by
  induction l generalizing m with
  | nil => simp
  | cons i rest ih =>
      rw [List.foldl_cons, ih]
      by_cases hi : i.asn = a
      · simp [mapGet_insert, hi]
      · have hb : (i.asn == a) = false := by simp [hi]
        have hi' : ¬ a = i.asn := fun hh => hi hh.symm
        simp [mapGet_insert, hi', hb]

theorem mapGet_foldInsert_unique (l : List PadInfo) (m : List (Asn × PadInfo))
    (i : PadInfo) (hmem : i ∈ l) (hnodup : (l.map PadInfo.asn).Nodup) :
    mapGet (l.foldl (fun acc j => mapInsert acc j.asn j) m) i.asn = some i := by
  induction l generalizing m with
  | nil => simp at hmem
  | cons j rest ih =>
      rw [List.map_cons, List.nodup_cons] at hnodup
      rcases List.mem_cons.mp hmem with h1 | h1
      · subst h1
        rw [List.foldl_cons, mapGet_foldInsert_notMem]
        · rw [mapGet_insert, if_pos rfl]
        · intro x hx hax
          exact hnodup.1 (hax ▸ List.mem_map_of_mem PadInfo.asn hx)
      · exact ih _ h1 hnodup.2

end MapLemmas

/-! ## Helper lemmas about the reconciliation loops -/

theorem make_pad_ok_definition {d : PadDefinition} {ck : CertifiedKey}
    {timing : IssuanceTimingConfig} {signer : KrillSigner} {info : PadInfo}
    (h : PadObjects.make_pad d ck timing signer = .ok info) :
    info.definition = d := by
  unfold PadObjects.make_pad make_pad_object at h
  cases hs : signer.sign d ck timing.new_aspa_validity with
  | error e => rw [hs] at h; cases h
  | ok pad =>
      rw [hs] at h
      cases h
      rfl

theorem issueLoop_ok_definitions {store : PadObjects} {ck : CertifiedKey}
    {cfg : Config} {signer : KrillSigner} :
    ∀ {l : List PadDefinition} {infos : List PadInfo},
      store.issueLoop ck cfg signer l = .ok infos →
      infos.map PadInfo.definition = l.filter (fun d => store.needToIssue d) := by
  intro l
  induction l with
  | nil =>
      intro infos h
      simp only [PadObjects.issueLoop] at h
      cases h
      simp
  | cons d rest ih =>
      intro infos h
      simp only [PadObjects.issueLoop] at h
      by_cases hneed : store.needToIssue d = true
      · rw [if_pos hneed] at h
        cases hmk : PadObjects.make_pad d ck cfg.issuance_timing signer with
        | error e => rw [hmk] at h; cases h
        | ok info =>
            rw [hmk] at h
            cases hrest : store.issueLoop ck cfg signer rest with
            | error e => rw [hrest] at h; cases h
            | ok infos2 =>
                rw [hrest] at h
                cases h
                rw [List.map_cons, ih hrest, List.filter_cons_of_pos hneed,
                  make_pad_ok_definition hmk]
      · rw [if_neg hneed] at h
        rw [ih h, List.filter_cons_of_neg (by simpa using hneed)]

theorem renewLoop_ok_definitions {ck : CertifiedKey} {threshold : Option Time}
    {timing : IssuanceTimingConfig} {signer : KrillSigner} :
    ∀ {l : List PadInfo} {infos : List PadInfo},
      PadObjects.renewLoop ck threshold timing signer l = .ok infos →
      infos.map PadInfo.definition =
        (l.filter (fun pad => renewDecision threshold pad)).map PadInfo.definition := by
  intro l
  induction l with
  | nil =>
      intro infos h
      simp only [PadObjects.renewLoop] at h
      cases h
      simp
  | cons pad rest ih =>
      intro infos h
      simp only [PadObjects.renewLoop] at h
      by_cases hren : renewDecision threshold pad = true
      · rw [if_pos hren] at h
        cases hmk : PadObjects.make_pad pad.definition ck timing signer with
        | error e => rw [hmk] at h; cases h
        | ok info =>
            rw [hmk] at h
            cases hrest : PadObjects.renewLoop ck threshold timing signer rest with
            | error e => rw [hrest] at h; cases h
            | ok infos2 =>
                rw [hrest] at h
                cases h
                rw [List.map_cons, ih hrest, List.filter_cons_of_pos hren,
                  List.map_cons, make_pad_ok_definition hmk]
      · rw [if_neg hren] at h
        rw [ih h, List.filter_cons_of_neg (by simpa using hren)]

theorem issueLoop_error_of_failure {store : PadObjects} {ck : CertifiedKey}
    {cfg : Config} {signer : KrillSigner} :
    ∀ {l : List PadDefinition},
      (∃ d ∈ l, store.needToIssue d = true ∧
        ∃ e, PadObjects.make_pad d ck cfg.issuance_timing signer = .error e) →
      ∃ e2, store.issueLoop ck cfg signer l = .error e2 ∧
        ∃ d2 ∈ l, store.needToIssue d2 = true ∧
          PadObjects.make_pad d2 ck cfg.issuance_timing signer = .error e2 := by
  intro l
  induction l with
  | nil =>
      rintro ⟨d, hd, _⟩
      simp at hd
  | cons d0 rest ih =>
      rintro ⟨d, hd, hneed, e, herr⟩
      by_cases hneed0 : store.needToIssue d0 = true
      · cases hmk : PadObjects.make_pad d0 ck cfg.issuance_timing signer with
        | error e0 =>
            refine ⟨e0, ?_, d0, List.mem_cons_self _ _, hneed0, hmk⟩
            simp [PadObjects.issueLoop, hneed0, hmk]
        | ok info =>
            have hd' : d ∈ rest := by
              rcases List.mem_cons.mp hd with h1 | h1
              · subst h1
                rw [hmk] at herr
                cases herr
              · exact h1
            rcases ih ⟨d, hd', hneed, e, herr⟩ with ⟨e2, hloop, d2, hd2, hneed2, herr2⟩
            refine ⟨e2, ?_, d2, List.mem_cons_of_mem _ hd2, hneed2, herr2⟩
            simp [PadObjects.issueLoop, hneed0, hmk, hloop]
      · have hd' : d ∈ rest := by
          rcases List.mem_cons.mp hd with h1 | h1
          · subst h1
            exact absurd hneed hneed0
          · exact h1
        rcases ih ⟨d, hd', hneed, e, herr⟩ with ⟨e2, hloop, d2, hd2, hneed2, herr2⟩
        refine ⟨e2, ?_, d2, List.mem_cons_of_mem _ hd2, hneed2, herr2⟩
        simp [PadObjects.issueLoop, hneed0, hloop]

theorem renewLoop_error_of_failure {ck : CertifiedKey} {threshold : Option Time}
    {timing : IssuanceTimingConfig} {signer : KrillSigner} :
    ∀ {l : List PadInfo},
      (∃ pad ∈ l, renewDecision threshold pad = true ∧
        ∃ e, PadObjects.make_pad pad.definition ck timing signer = .error e) →
      ∃ e2, PadObjects.renewLoop ck threshold timing signer l = .error e2 ∧
        ∃ pad2 ∈ l, renewDecision threshold pad2 = true ∧
          PadObjects.make_pad pad2.definition ck timing signer = .error e2 := by
  intro l
  induction l with
  | nil =>
      rintro ⟨pad, hp, _⟩
      simp at hp
  | cons p0 rest ih =>
      rintro ⟨pad, hp, hren, e, herr⟩
      by_cases hren0 : renewDecision threshold p0 = true
      · cases hmk : PadObjects.make_pad p0.definition ck timing signer with
        | error e0 =>
            refine ⟨e0, ?_, p0, List.mem_cons_self _ _, hren0, hmk⟩
            simp [PadObjects.renewLoop, hren0, hmk]
        | ok info =>
            have hp' : pad ∈ rest := by
              rcases List.mem_cons.mp hp with h1 | h1
              · subst h1
                rw [hmk] at herr
                cases herr
              · exact h1
            rcases ih ⟨pad, hp', hren, e, herr⟩ with ⟨e2, hloop, p2, hp2, hren2, herr2⟩
            refine ⟨e2, ?_, p2, List.mem_cons_of_mem _ hp2, hren2, herr2⟩
            simp [PadObjects.renewLoop, hren0, hmk, hloop]
      · have hp' : pad ∈ rest := by
          rcases List.mem_cons.mp hp with h1 | h1
          · subst h1
            exact absurd hren hren0
          · exact h1
        rcases ih ⟨pad, hp', hren, e, herr⟩ with ⟨e2, hloop, p2, hp2, hren2, herr2⟩
        refine ⟨e2, ?_, p2, List.mem_cons_of_mem _ hp2, hren2, herr2⟩
        simp [PadObjects.renewLoop, hren0, hloop]

theorem issueLoop_ok_of_none_needed {store : PadObjects} {ck : CertifiedKey}
    {cfg : Config} {signer : KrillSigner} :
    ∀ {l : List PadDefinition},
      (∀ d ∈ l, store.needToIssue d = false) →
      store.issueLoop ck cfg signer l = .ok [] := by
  intro l
  induction l with
  | nil => intro _; rfl
  | cons d rest ih =>
      intro h
      have hd : store.needToIssue d = false := h d (List.mem_cons_self _ _)
      simp only [PadObjects.issueLoop, hd]
      exact ih (fun d2 hd2 => h d2 (List.mem_cons_of_mem _ hd2))

theorem mapGet_mem {α : Type} :
    ∀ {m : List (Asn × α)} {a : Asn} {v : α}, mapGet m a = some v → (a, v) ∈ m := by
  intro m
  induction m with
  | nil => intro a v h; cases h
  | cons p rest ih =>
      intro a v h
      obtain ⟨k, w⟩ := p
      by_cases hk : k = a
      · subst hk
        simp [mapGet] at h
        subst h
        exact List.mem_cons_self _ _
      · simp only [mapGet, hk, if_false] at h
        exact List.mem_cons_of_mem _ (ih h)

/-- A definition reachable by `get` is one of the table's values. -/
theorem get_mem_all {t : PadDefinitions} {s : Asn} {d : PadDefinition}
    (h : mapGet t.defs s = some d) : d ∈ t.all :=
  List.mem_map_of_mem Prod.snd (mapGet_mem h)

/-- In a key-consistent table, `get s` returns a definition for subject `s`. -/
theorem get_asn {t : PadDefinitions} (hc : t.keyConsistent) {s : Asn}
    {d : PadDefinition} (h : mapGet t.defs s = some d) : d.asn = s :=
  hc (s, d) (mapGet_mem h)

/-- In a key-consistent table, every value is found by `has` at its ASN. -/
theorem has_of_mem_all {t : PadDefinitions} (hc : t.keyConsistent)
    {d : PadDefinition} (hd : d ∈ t.all) : t.has d.asn = true := by
  rcases List.mem_map.mp hd with ⟨p, hp, hpd⟩
  unfold PadDefinitions.has
  rw [mapGet_isSome_iff]
  refine ⟨d, ?_⟩
  have hk : p.1 = d.asn := by rw [← hpd]; exact (hc p hp).symm
  have : p = (d.asn, d) := by
    rcases p with ⟨k, v⟩
    simp only at hk hpd
    rw [hk, hpd]
  rw [← this]
  exact hp

/-! ## Concrete fixtures used by the witnesses -/

/-- `https://example.com/pad`, parsed. -/
def urlPad : Url :=
  { scheme := "https", username := "", password := none,
    path := "/pad", query := none, fragment := none }

/-- `https://example.com/pad2`, parsed. -/
def urlPad2 : Url :=
  { scheme := "https", username := "", password := none,
    path := "/pad2", query := none, fragment := none }

/-- A definition for AS64500. -/
def defA : PadDefinition := PadDefinition.new 64500 urlPad

/-- A definition for AS64501. -/
def defB : PadDefinition := PadDefinition.new 64501 urlPad2

/-- An update carrying the second URI. -/
def updB : PadUpdate := { peering_api_uri := urlPad2 }

/-- A one-entry definition table. -/
def table1 : PadDefinitions := ⟨[(64500, defA)]⟩

/-- A signer that always succeeds deterministically. -/
def okSigner : KrillSigner :=
  ⟨fun _ _ v => .ok { validity := v, serial := 1,
                      signed_object := some "rsync://repo/64500.pad", encoded := "QUJD" }⟩

/-- A signer whose key is unavailable. -/
def badSigner : KrillSigner := ⟨fun _ _ _ => .error "key unavailable"⟩

/-- A certified key whose resources cover AS64500 and AS64501. -/
def ckTwo : CertifiedKey := ⟨fun a => a == 64500 || a == 64501⟩

/-- A concrete issuance-timing configuration. -/
def cfg1 : Config := ⟨⟨{ not_before := 0, not_after := 100 }⟩⟩

/-- The empty store. -/
def store0 : PadObjects := ⟨[]⟩

/-! ## The claims -/

/-- C3: `valid_uri` returns `true` iff the target URI's scheme is exactly
`"https"`, it has no query, no fragment, no username, no password, and its
path does not end with `'/'`. -/
theorem claim_C3_uri_policy (d : PadDefinition) :
    d.valid_uri = true ↔ UriPolicySpec d := by
  rcases d with ⟨a, ⟨sch, user, pw, path, q, fr⟩⟩
  unfold PadDefinition.valid_uri UriPolicySpec
  cases q <;> cases fr <;> cases pw <;>
    by_cases hu : user = "" <;>
    by_cases hp : path.endsWith "/" = true <;>
    by_cases hs : sch = "https" <;>
    simp_all [String.isEmpty_iff]

/-- C8: upserting the same definition twice in succession leaves the table
with exactly one entry for its subject, and that entry is the definition. -/
theorem claim_C8_upsert_idempotent (t : PadDefinitions) (d : PadDefinition) :
    ((t.add_or_replace d).add_or_replace d).defs.countP (fun p => p.1 == d.asn) = 1 ∧
    ((t.add_or_replace d).add_or_replace d).get d.asn = some d := by
  unfold PadDefinitions.add_or_replace PadDefinitions.get
  exact ⟨countP_mapInsert_self _ _ _, by rw [mapGet_insert, if_pos rfl]⟩

/-- C5: `apply_update` on an existing definition replaces only its target
URI (keeping the subject), on an absent subject inserts the fresh definition
`(s, u.target_uri)`, and leaves every other subject unchanged. -/
theorem claim_C5_apply_update (t : PadDefinitions) (s : Asn) (u : PadUpdate) :
    (∀ cur, t.get s = some cur →
      (t.apply_update s u).get s =
        some { asn := cur.asn, peering_api_uri := u.peering_api_uri }) ∧
    (t.get s = none →
      (t.apply_update s u).get s = some (PadDefinition.new s u.peering_api_uri)) ∧
    (∀ s2, ¬ s2 = s → (t.apply_update s u).get s2 = t.get s2) := by
  refine ⟨?_, ?_, ?_⟩
  · intro cur hcur
    unfold PadDefinitions.get at hcur ⊢
    unfold PadDefinitions.apply_update
    simp only [hcur]
    rw [mapGet_modify, if_pos rfl, hcur]
    rfl
  · intro hnone
    unfold PadDefinitions.get at hnone ⊢
    unfold PadDefinitions.apply_update
    simp only [hnone]
    rw [mapGet_insert, if_pos rfl]
  · intro s2 hs2
    unfold PadDefinitions.get
    unfold PadDefinitions.apply_update
    cases hm : mapGet t.defs s with
    | some cur0 =>
        simp only [hm]
        rw [mapGet_modify, if_neg hs2]
    | none =>
        simp only [hm]
        rw [mapGet_insert, if_neg hs2]

/-- Witness for C5: at a concrete one-entry table, updating subject 64500
replaces its URI in place, subject 64501 is untouched, and updating the
absent subject 64501 inserts a fresh definition. -/
theorem claim_C5_apply_update_witness :
    (table1.apply_update 64500 updB).get 64500 =
      some { asn := 64500, peering_api_uri := urlPad2 } ∧
    (table1.apply_update 64500 updB).get 64501 = table1.get 64501 ∧
    (table1.apply_update 64501 updB).get 64501 =
      some (PadDefinition.new 64501 urlPad2) := by
  obtain ⟨h1, h2, h3⟩ := claim_C5_apply_update table1 64500 updB
  obtain ⟨g1, g2, g3⟩ := claim_C5_apply_update table1 64501 updB
  exact ⟨h1 defA rfl, h3 64501 (by decide), g2 rfl⟩

theorem storeConsistent_foldInsert (l : List PadInfo) (m : List (Asn × PadInfo))
    (hm : ∀ p ∈ m, (p.2).asn = p.1) :
    ∀ p ∈ l.foldl (fun acc i => mapInsert acc i.asn i) m, (p.2).asn = p.1 := by
  induction l generalizing m with
  | nil => exact hm
  | cons i rest ih =>
      rw [List.foldl_cons]
      apply ih
      intro p hp
      rcases mem_mapInsert hp with h | h
      · subst h
        rfl
      · exact hm p h

theorem storeConsistent_foldErase (l : List Asn) (m : List (Asn × PadInfo))
    (hm : ∀ p ∈ m, (p.2).asn = p.1) :
    ∀ p ∈ l.foldl (fun acc x => mapErase acc x) m, (p.2).asn = p.1 := by
  induction l generalizing m with
  | nil => exact hm
  | cons x rest ih =>
      rw [List.foldl_cons]
      apply ih
      intro p hp
      exact hm p (mem_mapErase hp).1

/-- A signed artifact fixture. -/
def padA : Pad :=
  { validity := { not_before := 0, not_after := 100 }, serial := 1,
    signed_object := some "rsync://repo/64500.pad", encoded := "QUJD" }

/-- An issued-object record fixture for AS64500. -/
def infoA : PadInfo := PadInfo.new defA padA

/-- C9: key consistency is an invariant of every mutating operation — the
table operations `add_or_replace`, `remove` and `apply_update` keep each
definition stored under its own ASN, and the store commit `updated` keeps
each record stored under its definition's ASN. -/
theorem claim_C9_key_consistency (t : PadDefinitions) (d : PadDefinition)
    (a : Asn) (u : PadUpdate) (store : PadObjects) (b : PadObjectsUpdates) :
    (t.keyConsistent → (t.add_or_replace d).keyConsistent) ∧
    (t.keyConsistent → (t.remove a).keyConsistent) ∧
    (t.keyConsistent → (t.apply_update a u).keyConsistent) ∧
    (store.keyConsistent → (store.updated b).keyConsistent) := by
  refine ⟨?_, ?_, ?_, ?_⟩
  · intro hc p hp
    rcases mem_mapInsert hp with h | h
    · subst h
      rfl
    · exact hc p h
  · intro hc p hp
    exact hc p (mem_mapErase hp).1
  · intro hc
    unfold PadDefinitions.apply_update
    cases hm : mapGet t.defs a with
    | some cur =>
        intro p hp
        rcases mem_mapModify hp with h | ⟨v, hv, hp2⟩
        · exact hc p h
        · subst hp2
          exact hc (a, v) hv
    | none =>
        intro p hp
        rcases mem_mapInsert hp with h | h
        · subst h
          rfl
        · exact hc p h
  · intro hc
    unfold PadObjects.updated
    intro p hp
    exact storeConsistent_foldErase b.removed _
      (storeConsistent_foldInsert b.updated store.objects hc) p hp

/-- Witness for C9 at concrete inputs: each of the four operations applied
to concrete consistent states yields a consistent state. -/
theorem claim_C9_key_consistency_witness :
    (table1.add_or_replace defB).keyConsistent ∧
    (table1.remove 64500).keyConsistent ∧
    (table1.apply_update 64500 updB).keyConsistent ∧
    (store0.updated ⟨[infoA], []⟩).keyConsistent := by
  obtain ⟨h1, h2, h3, h4⟩ :=
    claim_C9_key_consistency table1 defB 64500 updB store0 ⟨[infoA], []⟩
  exact ⟨h1 (by decide), h2 (by decide), h3 (by decide), h4 (by decide)⟩

/-- C10: a batch naming the same subject among its upserted records and in
its removal list leaves that subject absent after `updated`, because the
removal list is processed after the upsert list. -/
theorem claim_C10_remove_wins (store : PadObjects) (b : PadObjectsUpdates)
    (a : Asn) (hup : ∃ i ∈ b.updated, PadInfo.asn i = a) (hrem : a ∈ b.removed) :
    (store.updated b).has a = false := by
  unfold PadObjects.updated PadObjects.has
  rw [mapGet_foldErase, if_pos hrem]
  rfl

/-- Witness for C10: committing a batch that both upserts a record for
AS64500 and removes AS64500 leaves the store without AS64500. -/
theorem claim_C10_remove_wins_witness :
    (store0.updated ⟨[infoA], [64500]⟩).has 64500 = false :=
  claim_C10_remove_wins store0 ⟨[infoA], [64500]⟩ 64500
    ⟨infoA, List.mem_cons_self _ _, rfl⟩ (List.mem_singleton.mpr rfl)

/-- C4: a successful `renew` produces no removals, and its upsert list holds
exactly one new record for each stored record satisfying
`should_renew = threshold.is_none() OR record.validity.not_after < threshold.unwrap()`,
each new record carrying the same embedded definition as the record it
replaces; records with `not_after` at or after the threshold are not
renewed. -/
theorem claim_C4_renew_threshold (store : PadObjects) (ck : CertifiedKey)
    (threshold : Option Time) (timing : IssuanceTimingConfig)
    (signer : KrillSigner) (b : PadObjectsUpdates)
    (h : store.renew ck threshold timing signer = .ok b) :
    b.removed = [] ∧
    b.updated.map PadInfo.definition =
      ((store.objects.map Prod.snd).filter
        (fun r => match threshold with
                  | none => true
                  | some t => decide (r.validity.not_after < t))).map
        PadInfo.definition := by
  unfold PadObjects.renew at h
  cases hloop : PadObjects.renewLoop ck threshold timing signer
      (store.objects.map Prod.snd) with
  | error e =>
      rw [hloop] at h
      cases h
  | ok infos =>
      rw [hloop] at h
      cases h
      refine ⟨rfl, ?_⟩
      rw [renewLoop_ok_definitions hloop]
      congr 1
      apply List.filter_congr
      intro r _
      cases threshold <;> rfl

/-- A record for AS64500 that expires at time 1. -/
def infoOld1 : PadInfo :=
  PadInfo.new defA
    { validity := { not_before := 0, not_after := 1 }, serial := 7,
      signed_object := some "rsync://repo/64500.pad", encoded := "QQ" }

/-- A record for AS64501 that expires at time 10. -/
def infoOld10 : PadInfo :=
  PadInfo.new defB
    { validity := { not_before := 0, not_after := 10 }, serial := 8,
      signed_object := some "rsync://repo/64501.pad", encoded := "Qg" }

/-- A store holding the two records above. -/
def storeR : PadObjects := ⟨[(64500, infoOld1), (64501, infoOld10)]⟩

/-- The issuance timing fixture. -/
def timing1 : IssuanceTimingConfig := ⟨{ not_before := 50, not_after := 150 }⟩

/-- Witness for C4: with records expiring at 1 and 10 and threshold 5,
`renew` succeeds with no removals and re-issues exactly the record that
expires at 1, keeping its definition. -/
theorem claim_C4_renew_threshold_witness :
    ∃ b, storeR.renew ckTwo (some 5) timing1 okSigner = .ok b ∧
      (b.removed = [] ∧
       b.updated.map PadInfo.definition =
        ((storeR.objects.map Prod.snd).filter
          (fun r => match (some 5 : Option Time) with
                    | none => true
                    | some t => decide (r.validity.not_after < t))).map
          PadInfo.definition) :=
  ⟨_, rfl, claim_C4_renew_threshold storeR ckTwo (some 5) timing1 okSigner _ rfl⟩

/-- C2: if the signing boundary fails on any subject processed during
`update` (a covered definition needing issuance) or during `renew` (a record
passing the renewal test), the call returns a signing error raised for such
a subject, and the caller protocol (commit only on success) leaves the
issued-object store exactly unchanged — `update` and `renew` themselves
never touch the store. -/
theorem claim_C2_signing_failure_atomic (store : PadObjects)
    (t : PadDefinitions) (ck : CertifiedKey) (cfg : Config)
    (signer : KrillSigner) (threshold : Option Time)
    (timing : IssuanceTimingConfig) :
    ((∃ d ∈ t.all.filter (fun aspa => ck.resources aspa.asn),
        store.needToIssue d = true ∧
        ∃ e, PadObjects.make_pad d ck cfg.issuance_timing signer = .error e) →
      (∃ e2, store.update t ck cfg signer = .error e2 ∧
        ∃ d2 ∈ t.all.filter (fun aspa => ck.resources aspa.asn),
          store.needToIssue d2 = true ∧
          PadObjects.make_pad d2 ck cfg.issuance_timing signer = .error e2) ∧
      store.updateThenCommit t ck cfg signer = store) ∧
    ((∃ pad ∈ store.objects.map Prod.snd,
        renewDecision threshold pad = true ∧
        ∃ e, PadObjects.make_pad pad.definition ck timing signer = .error e) →
      (∃ e2, store.renew ck threshold timing signer = .error e2 ∧
        ∃ pad2 ∈ store.objects.map Prod.snd,
          renewDecision threshold pad2 = true ∧
          PadObjects.make_pad pad2.definition ck timing signer = .error e2) ∧
      store.renewThenCommit ck threshold timing signer = store) := by
  constructor
  · intro hfail
    rcases issueLoop_error_of_failure hfail with ⟨e2, hloop, d2, hd2, hneed2, herr2⟩
    have hupd : store.update t ck cfg signer = .error e2 := by
      simp only [PadObjects.update]
      rw [hloop]
    refine ⟨⟨e2, hupd, d2, hd2, hneed2, herr2⟩, ?_⟩
    unfold PadObjects.updateThenCommit
    rw [hupd]
  · intro hfail
    rcases renewLoop_error_of_failure hfail with ⟨e2, hloop, p2, hp2, hren2, herr2⟩
    have hren : store.renew ck threshold timing signer = .error e2 := by
      unfold PadObjects.renew
      rw [hloop]
    refine ⟨⟨e2, hren, p2, hp2, hren2, herr2⟩, ?_⟩
    unfold PadObjects.renewThenCommit
    rw [hren]

/-- Witness for C2: with a signer whose key is unavailable, the failed
`update` on an empty store (table covering AS64500) and the failed `renew`
on a two-record store leave each store exactly as it was. -/
theorem claim_C2_signing_failure_atomic_witness :
    store0.updateThenCommit table1 ckTwo cfg1 badSigner = store0 ∧
    storeR.renewThenCommit ckTwo none timing1 badSigner = storeR := by
  have hu := (claim_C2_signing_failure_atomic store0 table1 ckTwo cfg1 badSigner
    none timing1).1 ⟨defA, by decide, rfl, "key unavailable", rfl⟩
  have hr := (claim_C2_signing_failure_atomic storeR table1 ckTwo cfg1 badSigner
    none timing1).2 ⟨infoOld1, by decide, rfl, "key unavailable", rfl⟩
  exact ⟨hu.2, hr.2⟩

/-- C7: in a successful update batch over a key-consistent table, every
upserted record's subject passes the coverage test (present in the table
and contained in the resource set), every removed subject fails it, and no
subject appears in both lists. -/
theorem claim_C7_batch_disjoint (store : PadObjects) (t : PadDefinitions)
    (ck : CertifiedKey) (cfg : Config) (signer : KrillSigner)
    (b : PadObjectsUpdates) (hc : t.keyConsistent)
    (h : store.update t ck cfg signer = .ok b) :
    (∀ i ∈ b.updated,
      t.has (PadInfo.asn i) = true ∧ ck.resources (PadInfo.asn i) = true) ∧
    (∀ a ∈ b.removed, ¬ (t.has a = true ∧ ck.resources a = true)) ∧
    (∀ i ∈ b.updated, PadInfo.asn i ∉ b.removed) := by
  simp only [PadObjects.update] at h
  cases hloop : store.issueLoop ck cfg signer
      (t.all.filter (fun aspa => ck.resources aspa.asn)) with
  | error e =>
      rw [hloop] at h
      cases h
  | ok infos =>
      rw [hloop] at h
      cases h
      have hup : ∀ i ∈ infos,
          t.has (PadInfo.asn i) = true ∧ ck.resources (PadInfo.asn i) = true := by
        intro i hi
        have hmem : PadInfo.definition i ∈ infos.map PadInfo.definition :=
          List.mem_map_of_mem PadInfo.definition hi
        rw [issueLoop_ok_definitions hloop] at hmem
        have hcov := List.mem_of_mem_filter hmem
        rcases List.mem_filter.mp hcov with ⟨hall, hres⟩
        exact ⟨has_of_mem_all hc hall, hres⟩
      have hrem : ∀ a ∈ (store.objects.map Prod.fst).filter
          (fun pad => !(t.has pad) || !(ck.resources pad)),
          ¬ (t.has a = true ∧ ck.resources a = true) := by
        intro a ha hcontra
        rcases List.mem_filter.mp ha with ⟨_, hp⟩
        rcases hcontra with ⟨h1, h2⟩
        rw [h1, h2] at hp
        simp at hp
      refine ⟨hup, hrem, ?_⟩
      intro i hi hmem
      exact hrem _ hmem (hup i hi)

/-- A certified key whose resources cover only AS64500. -/
def ckOne : CertifiedKey := ⟨fun a => a == 64500⟩

/-- A two-entry definition table. -/
def table2 : PadDefinitions := ⟨[(64500, defA), (64501, defB)]⟩

/-- A store holding only a stale record for AS64501. -/
def storeS : PadObjects := ⟨[(64501, infoOld10)]⟩

/-- Witness for C7: reconciling a store holding only AS64501 against a table
with AS64500 and AS64501 but resources covering only AS64500 yields a batch
whose upserts pass the coverage test, whose removals fail it, and whose two
lists share no subject. -/
theorem claim_C7_batch_disjoint_witness :
    ∃ b, storeS.update table2 ckOne cfg1 okSigner = .ok b ∧
      ((∀ i ∈ b.updated,
        table2.has (PadInfo.asn i) = true ∧ ckOne.resources (PadInfo.asn i) = true) ∧
       (∀ a ∈ b.removed, ¬ (table2.has a = true ∧ ckOne.resources a = true)) ∧
       (∀ i ∈ b.updated, PadInfo.asn i ∉ b.removed)) :=
  ⟨_, rfl, claim_C7_batch_disjoint storeS table2 ckOne cfg1 okSigner _ (by decide) rfl⟩

/-- Shape of a committed store's membership: a subject is present after
`updated` iff it is not in the removal list and is either upserted or was
already present. -/
theorem updated_has (store : PadObjects) (b : PadObjectsUpdates) (s : Asn) :
    (store.updated b).has s =
      if s ∈ b.removed then false
      else (b.updated.any (fun i => PadInfo.asn i == s) || store.has s) := by
  show (mapGet (b.removed.foldl (fun m asn => mapErase m asn)
      (b.updated.foldl (fun m pad_info => mapInsert m (PadInfo.asn pad_info) pad_info)
        store.objects)) s).isSome = _
  rw [mapGet_foldErase]
  by_cases hrem : s ∈ b.removed
  · rw [if_pos hrem, if_pos hrem]
    rfl
  · rw [if_neg hrem, if_neg hrem, has_foldInsert]
    rfl

/-- C1: committing the batch of a successful `update` leaves the store
holding a subject exactly when the (key-consistent) definition table has it
and the resource set contains it. -/
theorem claim_C1_coverage_invariant (store : PadObjects) (t : PadDefinitions)
    (ck : CertifiedKey) (cfg : Config) (signer : KrillSigner)
    (b : PadObjectsUpdates) (hc : t.keyConsistent)
    (h : store.update t ck cfg signer = .ok b) (s : Asn) :
    (store.updated b).has s = (t.has s && ck.resources s) := by
  simp only [PadObjects.update] at h
  cases hloop : store.issueLoop ck cfg signer
      (t.all.filter (fun aspa => ck.resources aspa.asn)) with
  | error e =>
      rw [hloop] at h
      cases h
  | ok infos =>
      rw [hloop] at h
      cases h
      rw [updated_has]
      dsimp only
      by_cases hrem : s ∈ (store.objects.map Prod.fst).filter
          (fun pad => !(t.has pad) || !(ck.resources pad))
      · rw [if_pos hrem]
        rcases List.mem_filter.mp hrem with ⟨_, hp⟩
        simp only [Bool.or_eq_true, Bool.not_eq_true'] at hp
        rcases hp with hp | hp <;> simp [hp]
      · rw [if_neg hrem]
        by_cases hany : infos.any (fun i => PadInfo.asn i == s) = true
        · rw [hany]
          rcases List.any_eq_true.mp hany with ⟨i, hi, hieq⟩
          have hs : PadInfo.asn i = s := by simpa using hieq
          have hmem : PadInfo.definition i ∈ infos.map PadInfo.definition :=
            List.mem_map_of_mem PadInfo.definition hi
          rw [issueLoop_ok_definitions hloop] at hmem
          have hcov := List.mem_of_mem_filter hmem
          rcases List.mem_filter.mp hcov with ⟨hall, hres⟩
          have h1 : t.has s = true := by
            rw [← hs]
            exact has_of_mem_all hc hall
          have h2 : ck.resources s = true := by
            rw [← hs]
            exact hres
          rw [h1, h2]
          rfl
        · have hany' : infos.any (fun i => PadInfo.asn i == s) = false := by
            simp only [Bool.not_eq_true] at hany
            exact hany
          rw [hany', Bool.false_or]
          by_cases hstore : store.has s = true
          · rw [hstore]
            have hkeys : s ∈ store.objects.map Prod.fst := by
              rcases (mapGet_isSome_iff store.objects s).mp hstore with ⟨v, hv⟩
              exact List.mem_map_of_mem Prod.fst hv
            have hpred : (!(t.has s) || !(ck.resources s)) = false := by
              cases hcb : (!(t.has s) || !(ck.resources s)) with
              | false => rfl
              | true => exact absurd (List.mem_filter.mpr ⟨hkeys, hcb⟩) hrem
            simp only [Bool.or_eq_false_iff, Bool.not_eq_false'] at hpred
            rw [hpred.1, hpred.2]
            rfl
          · have hstore' : store.has s = false := by
              simp only [Bool.not_eq_true] at hstore
              exact hstore
            rw [hstore']
            by_cases hth : t.has s = true
            · by_cases hres : ck.resources s = true
              · exfalso
                have hth2 : (mapGet t.defs s).isSome = true := hth
                rcases Option.isSome_iff_exists.mp hth2 with ⟨d, hd⟩
                have hasn : d.asn = s := get_asn hc hd
                have hall : d ∈ t.all := get_mem_all hd
                have hcov : d ∈ t.all.filter (fun aspa => ck.resources aspa.asn) :=
                  List.mem_filter.mpr ⟨hall, by rw [hasn]; exact hres⟩
                by_cases hneed : store.needToIssue d = true
                · have hdf : d ∈ (t.all.filter (fun aspa => ck.resources aspa.asn)).filter
                      (fun d2 => store.needToIssue d2) :=
                    List.mem_filter.mpr ⟨hcov, hneed⟩
                  rw [← issueLoop_ok_definitions hloop] at hdf
                  rcases List.mem_map.mp hdf with ⟨i, hi, hdef⟩
                  have hbeq : (PadInfo.asn i == s) = true := by
                    rw [beq_iff_eq]
                    show (PadInfo.definition i).asn = s
                    rw [hdef, hasn]
                  have : infos.any (fun i => PadInfo.asn i == s) = true :=
                    List.any_eq_true.mpr ⟨i, hi, hbeq⟩
                  rw [this] at hany'
                  cases hany'
                · have hfalse : store.needToIssue d = false := by
                    simp only [Bool.not_eq_true] at hneed
                    exact hneed
                  unfold PadObjects.needToIssue at hfalse
                  cases hm : mapGet store.objects d.asn with
                  | none =>
                      rw [hm] at hfalse
                      simp at hfalse
                  | some r =>
                      have hh : store.has s = true := by
                        unfold PadObjects.has
                        rw [← hasn, hm]
                        rfl
                      rw [hh] at hstore'
                      cases hstore'
              · have : ck.resources s = false := by
                  simp only [Bool.not_eq_true] at hres
                  exact hres
                rw [hth, this]
                rfl
            · have : t.has s = false := by
                simp only [Bool.not_eq_true] at hth
                exact hth
              rw [this]
              rfl

/-- Witness for C1: reconciling the empty store against a one-entry table
covered by the resources and committing yields exactly the covered subject,
checked at a present subject and an absent one. -/
theorem claim_C1_coverage_invariant_witness :
    ∃ b, store0.update table1 ckTwo cfg1 okSigner = .ok b ∧
      ((store0.updated b).has 64500 = (table1.has 64500 && ckTwo.resources 64500) ∧
       (store0.updated b).has 64501 = (table1.has 64501 && ckTwo.resources 64501)) :=
  ⟨_, rfl,
    claim_C1_coverage_invariant store0 table1 ckTwo cfg1 okSigner _ (by decide) rfl 64500,
    claim_C1_coverage_invariant store0 table1 ckTwo cfg1 okSigner _ (by decide) rfl 64501⟩

/-- The ASNs of the covered definitions of a key-consistent table with
unique keys are pairwise distinct. -/
theorem covered_asn_nodup {t : PadDefinitions} (hc : t.keyConsistent)
    (hn : t.nodupKeys) (p : PadDefinition → Bool) :
    ((t.all.filter p).map PadDefinition.asn).Nodup := by
  have h1 : t.all.map PadDefinition.asn = t.defs.map Prod.fst := by
    unfold PadDefinitions.all
    rw [List.map_map]
    exact List.map_congr_left (fun q hq => hc q hq)
  have h2 : List.Sublist ((t.all.filter p).map PadDefinition.asn)
      (t.all.map PadDefinition.asn) :=
    (List.filter_sublist t.all).map PadDefinition.asn
  rw [h1] at h2
  have hn2 : (t.defs.map Prod.fst).Nodup := hn
  exact List.Nodup.sublist h2 hn2

/-- Shape of a committed store's lookup. -/
theorem updated_get (store : PadObjects) (b : PadObjectsUpdates) (s : Asn) :
    mapGet (store.updated b).objects s =
      if s ∈ b.removed then none
      else mapGet (b.updated.foldl
        (fun m pad_info => mapInsert m (PadInfo.asn pad_info) pad_info)
        store.objects) s := by
  show mapGet (b.removed.foldl (fun m asn => mapErase m asn)
      (b.updated.foldl (fun m pad_info => mapInsert m (PadInfo.asn pad_info) pad_info)
        store.objects)) s = _
  rw [mapGet_foldErase]

/-- C6: after a successful `update` is committed, a second `update` with the
same key-consistent, duplicate-free table, the same resources and the same
signer succeeds with an empty upsert list. -/
theorem claim_C6_noop_stability (store : PadObjects) (t : PadDefinitions)
    (ck : CertifiedKey) (cfg : Config) (signer : KrillSigner)
    (b : PadObjectsUpdates) (hc : t.keyConsistent) (hn : t.nodupKeys)
    (h : store.update t ck cfg signer = .ok b) :
    ∃ b2, (store.updated b).update t ck cfg signer = .ok b2 ∧ b2.updated = [] := by
  simp only [PadObjects.update] at h
  cases hloop : store.issueLoop ck cfg signer
      (t.all.filter (fun aspa => ck.resources aspa.asn)) with
  | error e =>
      rw [hloop] at h
      cases h
  | ok infos =>
      rw [hloop] at h
      cases h
      have hnodupinfos : (infos.map PadInfo.asn).Nodup := by
        have hm1 : infos.map PadInfo.asn =
            (infos.map PadInfo.definition).map PadDefinition.asn := by
          rw [List.map_map]
          exact List.map_congr_left (fun i _ => rfl)
        rw [hm1, issueLoop_ok_definitions hloop]
        have hsub : List.Sublist
            (((t.all.filter (fun aspa => ck.resources aspa.asn)).filter
              (fun d2 => store.needToIssue d2)).map PadDefinition.asn)
            ((t.all.filter (fun aspa => ck.resources aspa.asn)).map PadDefinition.asn) :=
          (List.filter_sublist _).map PadDefinition.asn
        exact List.Nodup.sublist hsub (covered_asn_nodup hc hn _)
      have hnoneed : ∀ d ∈ t.all.filter (fun aspa => ck.resources aspa.asn),
          (store.updated
            { updated := infos,
              removed := (store.objects.map Prod.fst).filter
                (fun pad => !(t.has pad) || !(ck.resources pad)) }).needToIssue d
            = false := by
        intro d hd
        rcases List.mem_filter.mp hd with ⟨hall, hres⟩
        have hhas : t.has d.asn = true := has_of_mem_all hc hall
        have hdnotR : d.asn ∉ (store.objects.map Prod.fst).filter
            (fun pad => !(t.has pad) || !(ck.resources pad)) := by
          intro hmem
          rcases List.mem_filter.mp hmem with ⟨_, hp⟩
          rw [hhas, hres] at hp
          simp at hp
        unfold PadObjects.needToIssue
        rw [updated_get, if_neg hdnotR]
        by_cases hneed : store.needToIssue d = true
        · have hdf : d ∈ (t.all.filter (fun aspa => ck.resources aspa.asn)).filter
              (fun d2 => store.needToIssue d2) := List.mem_filter.mpr ⟨hd, hneed⟩
          rw [← issueLoop_ok_definitions hloop] at hdf
          rcases List.mem_map.mp hdf with ⟨i, hi, hdef⟩
          have hasn : PadInfo.asn i = d.asn := by
            show (PadInfo.definition i).asn = d.asn
            rw [hdef]
          have hget : mapGet (infos.foldl
              (fun m pad_info => mapInsert m (PadInfo.asn pad_info) pad_info)
              store.objects) d.asn = some i := by
            rw [← hasn]
            exact mapGet_foldInsert_unique infos store.objects i hi hnodupinfos
          rw [hget]
          simp [hdef]
        · have hneed' : store.needToIssue d = false := by
            simp only [Bool.not_eq_true] at hneed
            exact hneed
          have hnomem : ∀ i ∈ infos, ¬ PadInfo.asn i = d.asn := by
            intro i hi hasn
            have hmem : PadInfo.definition i ∈ infos.map PadInfo.definition :=
              List.mem_map_of_mem PadInfo.definition hi
            rw [issueLoop_ok_definitions hloop] at hmem
            have hcov2 := List.mem_of_mem_filter hmem
            have hinj := List.inj_on_of_nodup_map
              (covered_asn_nodup hc hn (fun aspa => ck.resources aspa.asn))
            have hdefeq : PadInfo.definition i = d := by
              apply hinj hcov2 hd
              show (PadInfo.definition i).asn = d.asn
              exact hasn
            rcases List.mem_filter.mp hmem with ⟨_, hneedi⟩
            rw [hdefeq] at hneedi
            rw [hneedi] at hneed'
            cases hneed'
          rw [mapGet_foldInsert_notMem infos store.objects d.asn hnomem]
          exact hneed'
      have hloop2 : (store.updated
          { updated := infos,
            removed := (store.objects.map Prod.fst).filter
              (fun pad => !(t.has pad) || !(ck.resources pad)) }).issueLoop
          ck cfg signer (t.all.filter (fun aspa => ck.resources aspa.asn)) = .ok [] :=
        issueLoop_ok_of_none_needed hnoneed
      refine ⟨{ updated := [],
                removed := ((store.updated
                  { updated := infos,
                    removed := (store.objects.map Prod.fst).filter
                      (fun pad => !(t.has pad) || !(ck.resources pad)) }).objects.map
                      Prod.fst).filter
                  (fun pad => !(t.has pad) || !(ck.resources pad)) }, ?_, rfl⟩
      simp only [PadObjects.update]
      rw [hloop2]

/-- Witness for C6: after reconciling the empty store against the one-entry
table and committing, a second reconciliation succeeds and upserts
nothing. -/
theorem claim_C6_noop_stability_witness :
    ∃ b, store0.update table1 ckTwo cfg1 okSigner = .ok b ∧
      ∃ b2, (store0.updated b).update table1 ckTwo cfg1 okSigner = .ok b2 ∧
        b2.updated = [] :=
  ⟨_, rfl, claim_C6_noop_stability store0 table1 ckTwo cfg1 okSigner _
    (by decide) (by decide) rfl⟩
